import Mathlib

/-!
Verification of the sparse Game-of-Life engine of this repository: the
transition engine (`tick`), the screen/grid coordinate mapper with
anchor-preserving zoom, the brush/stroke rasterizer, the stroke gesture
protocol, and the packed 32-bit coordinate key encoding.

Cells are modelled as pairs of integers; the string keys `"x,y"` of
src/script.js give an injective encoding of such pairs, so a `Finset (ℤ × ℤ)`
models the `Set` of live-cell keys exactly.  Screen coordinates and the zoom
scale are modelled as rationals.  JavaScript's 32-bit coercions (`ToInt32`,
`ToUint32`) are modelled explicitly for the packed-key engine variants.
-/

namespace GoL

/-! ### Transition engine (src/script.js lines 58-83) -/

/-- The list of the 8 Moore-neighbor coordinates of a cell, in the order the
`addNeighbor` calls appear in `tick` (src/script.js lines 66-71). -/
def neighborsOf (c : ℤ × ℤ) : List (ℤ × ℤ) :=
  [(c.1 - 1, c.2 - 1), (c.1, c.2 - 1), (c.1 + 1, c.2 - 1),
   (c.1 - 1, c.2),                     (c.1 + 1, c.2),
   (c.1 - 1, c.2 + 1), (c.1, c.2 + 1), (c.1 + 1, c.2 + 1)]

/-- The key set of the `neighborCounts` map built by `tick`: every coordinate
that received at least one `addNeighbor` increment. -/
def tallyKeys (S : Finset (ℤ × ℤ)) : Finset (ℤ × ℤ) :=
  S.biUnion fun c => (neighborsOf c).toFinset

/-- The count stored in the `neighborCounts` map at key `k`: one increment per
`addNeighbor` call that hits `k`, summed over all live cells. -/
def tally (S : Finset (ℤ × ℤ)) (k : ℤ × ℤ) : ℕ :=
  Finset.sum S fun c => (neighborsOf c).count k

/-- `tick` from src/script.js lines 58-83: build the neighbor tally, then keep
exactly the tally keys passing the survival/birth branch
(`isAlive && (count === 2 || count === 3)`, else `!isAlive && count === 3`). -/
def tick (S : Finset (ℤ × ℤ)) : Finset (ℤ × ℤ) :=
  (tallyKeys S).filter fun k =>
    (k ∈ S ∧ (tally S k = 2 ∨ tally S k = 3)) ∨ (k ∉ S ∧ tally S k = 3)

/-- Spec-side notion (spec §4.3): Moore adjacency — the 8 cells sharing an
edge or a corner with a cell, never the cell itself. -/
def mooreAdjacent (k c : ℤ × ℤ) : Prop :=
  k ≠ c ∧ (k.1 - c.1).natAbs ≤ 1 ∧ (k.2 - c.2).natAbs ≤ 1

instance (k c : ℤ × ℤ) : Decidable (mooreAdjacent k c) := by
  unfold mooreAdjacent; infer_instance

/-- Spec-side notion: the number of live Moore neighbors of `k` in `S`. -/
def liveNeighborCount (S : Finset (ℤ × ℤ)) (k : ℤ × ℤ) : ℕ :=
  (S.filter fun c => mooreAdjacent k c).card

/-- The `clearBtn` click handler (src/script.js lines 319-322):
`liveCells.clear()`. -/
def clearAll (_ : Finset (ℤ × ℤ)) : Finset (ℤ × ℤ) := ∅

/-! ### Coordinate mapper (src/script.js lines 120-121, 236-237, 278-290) -/

/-- The viewport state: `scale` (pixels per cell) and the pixel offset of the
grid origin. -/
structure Viewport where
  scale : ℚ
  offsetX : ℚ
  offsetY : ℚ

/-- Screen-to-grid: `Math.floor((clientX - offsetX) / scale)` componentwise,
as in the `mousedown`/`mousemove` handlers (src/script.js lines 236-237). -/
def toGrid (v : Viewport) (p : ℚ × ℚ) : ℤ × ℤ :=
  (⌊(p.1 - v.offsetX) / v.scale⌋, ⌊(p.2 - v.offsetY) / v.scale⌋)

/-- Grid-to-screen: `gx * scale + offsetX` componentwise, as in `draw`
(src/script.js lines 120-121). -/
def toScreen (v : Viewport) (c : ℤ × ℤ) : ℚ × ℚ :=
  (c.1 * v.scale + v.offsetX, c.2 * v.scale + v.offsetY)

/-- The zoom clamp `Math.max(2, Math.min(100, scale * factor))`
(src/script.js line 281). -/
def clampScale (s : ℚ) : ℚ := max 2 (min 100 s)

/-- The `wheel` handler (src/script.js lines 278-290) with zoom factor
`1 + delta`: clamp the new scale, then recompute the offset from the grid
coordinate under the cursor. -/
def zoomAt (v : Viewport) (p : ℚ × ℚ) (factor : ℚ) : Viewport :=
  { scale := clampScale (v.scale * factor)
    offsetX := p.1 - (p.1 - v.offsetX) / v.scale * clampScale (v.scale * factor)
    offsetY := p.2 - (p.2 - v.offsetY) / v.scale * clampScale (v.scale * factor) }

/-! ### Brush rasterizer (src/script.js lines 175-205; src/unnamed/part_000
lines 186-202; src/unnamed/part_001 lines 240-256) -/

/-- The integer bounding box scanned by `paintCircle`:
`x` from `Math.floor(cx - r)` to `Math.ceil(cx + r)`, likewise for `y`,
with `r = brushSize / 2`. -/
def brushBox (size : ℕ) (c : ℤ × ℤ) : Finset (ℤ × ℤ) :=
  Finset.Icc ⌊(c.1 : ℚ) - (size : ℚ) / 2⌋ ⌈(c.1 : ℚ) + (size : ℚ) / 2⌉ ×ˢ
    Finset.Icc ⌊(c.2 : ℚ) - (size : ℚ) / 2⌋ ⌈(c.2 : ℚ) + (size : ℚ) / 2⌉

/-- Cells painted by one `paintCircle` call in src/script.js (lines 175-205):
special case for brush size 1, otherwise the disc test
`(x-cx)^2 + (y-cy)^2 <= (size/2)^2` over the bounding box. -/
def paintedCellsV2 (size : ℕ) (c : ℤ × ℤ) : Finset (ℤ × ℤ) :=
  if size = 1 then {c}
  else (brushBox size c).filter fun q =>
    ((q.1 : ℚ) - (c.1 : ℚ)) ^ 2 + ((q.2 : ℚ) - (c.2 : ℚ)) ^ 2 ≤ ((size : ℚ) / 2) ^ 2

/-- `paintCircle` from src/script.js: add every painted cell when `drawMode`
is true, delete every painted cell when it is false. -/
def paintCircleV2 (mode : Bool) (size : ℕ) (c : ℤ × ℤ) (cells : Finset (ℤ × ℤ)) :
    Finset (ℤ × ℤ) :=
  if mode then cells ∪ paintedCellsV2 size c else cells \ paintedCellsV2 size c

/-- Cells painted by one `paintCircle` call in src/unnamed/part_000 (lines
186-202) and src/unnamed/part_001 (lines 240-256): every bounding-box cell is
painted unless `brushSize > 1 &&` the disc test fails. -/
def paintedCellsV1 (size : ℕ) (c : ℤ × ℤ) : Finset (ℤ × ℤ) :=
  (brushBox size c).filter fun q =>
    ¬(1 < size ∧ ((size : ℚ) / 2) ^ 2 <
        ((q.1 : ℚ) - (c.1 : ℚ)) ^ 2 + ((q.2 : ℚ) - (c.2 : ℚ)) ^ 2)

/-- `paintCircle` from src/unnamed/part_000 / part_001. -/
def paintCircleV1 (mode : Bool) (size : ℕ) (c : ℤ × ℤ) (cells : Finset (ℤ × ℤ)) :
    Finset (ℤ × ℤ) :=
  if mode then cells ∪ paintedCellsV1 size c else cells \ paintedCellsV1 size c

/-! ### Stroke interpolation (src/script.js lines 208-223) -/

/-- The `while (true)` loop of `interpolateLine` (src/script.js lines
215-222), with an explicit fuel argument bounding the number of iterations:
paint the current cell, break once `(x0,y0)` equals `(x1,y1)`, otherwise
advance `x0`, `y0` and `err` exactly as the two `if (e2 ...)` branches do. -/
def bresRun (x1 y1 dx dy sx sy : ℤ) : ℕ → ℤ → ℤ → ℤ → List (ℤ × ℤ)
  | 0, _, _, _ => []
  | n + 1, x0, y0, err =>
    if x0 = x1 ∧ y0 = y1 then [(x0, y0)]
    else
      (x0, y0) ::
        bresRun x1 y1 dx dy sx sy n
          (if 2 * err > -dy then x0 + sx else x0)
          (if 2 * err < dx then y0 + sy else y0)
          ((if 2 * err > -dy then err - dy else err) + (if 2 * err < dx then dx else 0))

/-- `interpolateLine(x0, y0, x1, y1)` from src/script.js lines 208-223 (the
same code appears in both unnamed variants): `dx = |x1-x0|`, `dy = |y1-y0|`,
steps `±1`, initial error `dx - dy`; the fuel `dx + dy + 1` is an upper bound
on the iteration count, proved sufficient below, so the fueled run is exactly
the trace of the `while (true)` loop. -/
def interpolateLine (x0 y0 x1 y1 : ℤ) : List (ℤ × ℤ) :=
  bresRun x1 y1 |x1 - x0| |y1 - y0| (if x0 < x1 then 1 else -1) (if y0 < y1 then 1 else -1)
    (|x1 - x0| + |y1 - y0| + 1).toNat x0 y0 (|x1 - x0| - |y1 - y0|)

/-- Two painted centers differ by at most one in each coordinate
(8-connectivity of consecutive steps). -/
def adjStep (p q : ℤ × ℤ) : Prop :=
  (q.1 - p.1).natAbs ≤ 1 ∧ (q.2 - p.2).natAbs ≤ 1

/-! ### Drawing gesture handlers (src/script.js lines 226-275) -/

/-- The mutable state touched by the drawing gesture handlers in
src/script.js. -/
structure DrawState where
  liveCells : Finset (ℤ × ℤ)
  isDrawing : Bool
  isDragging : Bool
  drawMode : Bool
  brushSize : ℕ
  lastDrawPos : Option (ℤ × ℤ)
  scale : ℚ
  offsetX : ℚ
  offsetY : ℚ
  dragStartX : ℚ
  dragStartY : ℚ

/-- `interpolateLine` calls `paintCircle` at every step along the way:
fold the per-center paint over the list of centers. -/
def paintAlong (mode : Bool) (size : ℕ) (pts : List (ℤ × ℤ))
    (cells : Finset (ℤ × ℤ)) : Finset (ℤ × ℤ) :=
  pts.foldl (fun cs p => paintCircleV2 mode size p cs) cells

/-- The left-button branch of the `mousedown` handler (src/script.js lines
232-246): compute the grid cell under the cursor, fix `drawMode` as the
negation of that cell's aliveness, record `lastDrawPos`, paint once. -/
def mousedownLeft (s : DrawState) (e : ℚ × ℚ) : DrawState :=
  let g := toGrid ⟨s.scale, s.offsetX, s.offsetY⟩ e
  let mode := !(decide (g ∈ s.liveCells))
  { s with isDrawing := true, drawMode := mode, lastDrawPos := some g,
           liveCells := paintCircleV2 mode s.brushSize g s.liveCells }

/-- The `mousemove` handler (src/script.js lines 256-275): pan while
dragging, otherwise paint (interpolating from `lastDrawPos` when present)
while drawing. -/
def mousemove (s : DrawState) (e : ℚ × ℚ) : DrawState :=
  if s.isDragging then
    { s with offsetX := e.1 - s.dragStartX, offsetY := e.2 - s.dragStartY }
  else if s.isDrawing then
    let g := toGrid ⟨s.scale, s.offsetX, s.offsetY⟩ e
    let cells :=
      match s.lastDrawPos with
      | some p =>
        paintAlong s.drawMode s.brushSize (interpolateLine p.1 p.2 g.1 g.2) s.liveCells
      | none => paintCircleV2 s.drawMode s.brushSize g s.liveCells
    { s with liveCells := cells, lastDrawPos := some g }
  else s

/-- The `mouseup` handler (src/script.js lines 249-254). -/
def mouseup (s : DrawState) : DrawState :=
  { s with isDragging := false, isDrawing := false, lastDrawPos := none }

/-! ### Packed 32-bit coordinate keys (src/unnamed/part_000 and part_001,
lines 28-33) -/

/-- JavaScript's ToInt32: reduce mod 2^32 into [-2^31, 2^31). -/
def toInt32 (n : ℤ) : ℤ :=
  if n % 4294967296 < 2147483648 then n % 4294967296 else n % 4294967296 - 4294967296

/-- JavaScript's ToUint32: reduce mod 2^32 into [0, 2^32). -/
def toUint32 (n : ℤ) : ℤ := n % 4294967296

/-- JS `n << 16`: ToInt32 the operand, multiply by 2^16, ToInt32 the result. -/
def jsShl16 (n : ℤ) : ℤ := toInt32 (toInt32 n * 65536)

/-- JS `a & b`: two's-complement bitwise AND of the ToInt32 images. -/
def jsAnd (a b : ℤ) : ℤ := Int.land (toInt32 a) (toInt32 b)

/-- JS `a | b`: two's-complement bitwise OR of the ToInt32 images. -/
def jsOr (a b : ℤ) : ℤ := Int.lor (toInt32 a) (toInt32 b)

/-- JS `n >>> 16`: shift the ToUint32 image right by 16 bits. -/
def jsShrU16 (n : ℤ) : ℤ := toUint32 n / 65536

/-- `pack` from src/unnamed/part_000 line 31:
`((x + 0x8000) << 16) | ((y + 0x8000) & 0xFFFF)`. -/
def pack (x y : ℤ) : ℤ := jsOr (jsShl16 (x + 32768)) (jsAnd (y + 32768) 65535)

/-- `unpackX` from src/unnamed/part_000 line 32: `(key >>> 16) - 0x8000`. -/
def unpackX (key : ℤ) : ℤ := jsShrU16 key - 32768

/-- `unpackY` from src/unnamed/part_000 line 33: `(key & 0xFFFF) - 0x8000`. -/
def unpackY (key : ℤ) : ℤ := jsAnd key 65535 - 32768

/-- The documented coordinate range of the packed encoding
(`-32,768 to 32,767 for both X and Y`). -/
def InRange (x : ℤ) : Prop := -32768 ≤ x ∧ x ≤ 32767

/-! ### Lemmas about the transition engine -/

lemma mooreAdjacent_comm (k c : ℤ × ℤ) : mooreAdjacent k c ↔ mooreAdjacent c k := by
  obtain ⟨kx, ky⟩ := k; obtain ⟨cx, cy⟩ := c
  simp only [mooreAdjacent, ne_eq, Prod.mk.injEq, not_and]
  omega

lemma mem_neighborsOf (k c : ℤ × ℤ) : k ∈ neighborsOf c ↔ mooreAdjacent k c := by
  obtain ⟨kx, ky⟩ := k; obtain ⟨cx, cy⟩ := c
  simp only [neighborsOf, mooreAdjacent, List.mem_cons, List.not_mem_nil, or_false,
    Prod.mk.injEq, ne_eq, not_and]
  omega

lemma count_neighborsOf (k c : ℤ × ℤ) :
    (neighborsOf c).count k = if mooreAdjacent k c then 1 else 0 := by
  obtain ⟨kx, ky⟩ := k; obtain ⟨cx, cy⟩ := c
  simp only [neighborsOf, mooreAdjacent, List.count_cons, List.count_nil, beq_iff_eq,
    Prod.mk.injEq, ne_eq, not_and]
  split_ifs <;> omega

lemma tally_eq_liveNeighborCount (S : Finset (ℤ × ℤ)) (k : ℤ × ℤ) :
    tally S k = liveNeighborCount S k := by
  unfold tally liveNeighborCount
  rw [Finset.card_filter]
  refine Finset.sum_congr rfl fun c _ => ?_
  rw [count_neighborsOf]

lemma mem_tallyKeys (S : Finset (ℤ × ℤ)) (k : ℤ × ℤ) :
    k ∈ tallyKeys S ↔ ∃ c ∈ S, mooreAdjacent k c := by
  unfold tallyKeys
  simp only [Finset.mem_biUnion, List.mem_toFinset]
  constructor
  · rintro ⟨c, hc, hk⟩
    exact ⟨c, hc, (mem_neighborsOf k c).mp hk⟩
  · rintro ⟨c, hc, hk⟩
    exact ⟨c, hc, (mem_neighborsOf k c).mpr hk⟩

lemma exists_adjacent_of_pos {S : Finset (ℤ × ℤ)} {k : ℤ × ℤ}
    (h : 0 < liveNeighborCount S k) : ∃ c ∈ S, mooreAdjacent k c := by
  obtain ⟨c, hc⟩ := Finset.card_pos.mp h
  rw [Finset.mem_filter] at hc
  exact ⟨c, hc.1, hc.2⟩

lemma tick_empty : tick ∅ = ∅ := by
  unfold tick tallyKeys
  simp

lemma tick_iterate_empty (n : ℕ) : tick^[n] (∅ : Finset (ℤ × ℤ)) = ∅ := by
  induction n with
  | zero => rfl
  | succ n ih => rw [Function.iterate_succ_apply, tick_empty, ih]

/-! ### Lemmas about the viewport -/

lemma clampScale_pos (s : ℚ) : 0 < clampScale s :=
  lt_of_lt_of_le (by norm_num) (le_max_left _ _)

/-! ### Lemmas about the brush -/

lemma brushBox_one : brushBox 1 ((0 : ℤ), (0 : ℤ)) =
    Finset.Icc (-1) 1 ×ˢ Finset.Icc (-1) 1 := by
  have hf : ⌊((0 : ℤ) : ℚ) - ((1 : ℕ) : ℚ) / 2⌋ = -1 := by push_cast; norm_num
  have hc : ⌈((0 : ℤ) : ℚ) + ((1 : ℕ) : ℚ) / 2⌉ = 1 := by
    push_cast
    rw [show ((0 : ℚ) + 1 / 2) = 1 / 2 by norm_num, Int.ceil_eq_iff] <;> norm_num
  unfold brushBox
  rw [hf, hc]

lemma paintedCellsV1_one : paintedCellsV1 1 ((0 : ℤ), (0 : ℤ)) =
    ({(-1,-1),(0,-1),(1,-1),(-1,0),(0,0),(1,0),(-1,1),(0,1),(1,1)} : Finset (ℤ × ℤ)) := by
  unfold paintedCellsV1
  rw [brushBox_one, Finset.filter_true_of_mem (fun q _ => by simp)]
  decide

/-! ### Lemmas about the stroke interpolation -/

lemma getLast?_cons_of_ne_nil {α : Type} (a : α) {l : List α} (h : l ≠ []) :
    (a :: l).getLast? = l.getLast? := by
  cases l with
  | nil => exact absurd rfl h
  | cons b t => exact List.getLast?_cons_cons

lemma adjStep_move (x0 y0 sx sy : ℤ) (hsx : sx = 1 ∨ sx = -1) (hsy : sy = 1 ∨ sy = -1)
    (dx2 dy2 : ℤ) (hx : dx2 = 0 ∨ dx2 = sx) (hy : dy2 = 0 ∨ dy2 = sy) :
    adjStep (x0, y0) (x0 + dx2, y0 + dy2) := by
  constructor <;> simp only <;> rcases hsx with h | h <;> rcases hsy with h' | h' <;>
    subst h <;> subst h' <;> omega

lemma bresRun_spec (x1 y1 dx dy sx sy X0 Y0 : ℤ)
    (hdx : 0 ≤ dx) (hdy : 0 ≤ dy)
    (hsx : sx = 1 ∨ sx = -1) (hsy : sy = 1 ∨ sy = -1)
    (hx1 : x1 = X0 + sx * dx) (hy1 : y1 = Y0 + sy * dy) :
    ∀ (n : ℕ) (px py x0 y0 err : ℤ),
      x0 = X0 + sx * px → y0 = Y0 + sy * py →
      0 ≤ px → px ≤ dx → 0 ≤ py → py ≤ dy →
      err = dx - dy - dy * px + dx * py →
      (dx - px) + (dy - py) < (n : ℤ) →
      bresRun x1 y1 dx dy sx sy n x0 y0 err ≠ [] ∧
      (bresRun x1 y1 dx dy sx sy n x0 y0 err).head? = some (x0, y0) ∧
      (bresRun x1 y1 dx dy sx sy n x0 y0 err).getLast? = some (x1, y1) ∧
      List.Chain' adjStep (bresRun x1 y1 dx dy sx sy n x0 y0 err) := by
  intro n
  induction n with
  | zero =>
    intro px py x0 y0 err _ _ h1 h2 h3 h4 _ hfuel
    exact absurd hfuel (by push_cast; omega)
  | succ n ih =>
    intro px py x0 y0 err hx0 hy0 hpx0 hpxd hpy0 hpyd herr hfuel
    have hxiff : x0 = x1 ↔ px = dx := by
      rcases hsx with h | h <;> subst h <;> omega
    have hyiff : y0 = y1 ↔ py = dy := by
      rcases hsy with h | h <;> subst h <;> omega
    by_cases hend : x0 = x1 ∧ y0 = y1
    · rw [bresRun, if_pos hend]
      refine ⟨by simp, rfl, ?_, by simp [adjStep]⟩
      simp [hend.1, hend.2]
    · rw [bresRun, if_neg hend]
      have hnot : ¬(px = dx ∧ py = dy) := by
        intro h
        exact hend ⟨hxiff.mpr h.1, hyiff.mpr h.2⟩
      have hcaseA : px = dx → py < dy → ¬(2 * err > -dy) ∧ 2 * err < dx := by
        intro hpx hpy
        have hmul : dx * py ≤ dx * (dy - 1) :=
          mul_le_mul_of_nonneg_left (by omega) hdx
        subst hpx
        constructor <;> nlinarith
      have hcaseB : py = dy → px < dx → (2 * err > -dy) ∧ ¬(2 * err < dx) := by
        intro hpy hpx
        have hmul : dy * px ≤ dy * (dx - 1) :=
          mul_le_mul_of_nonneg_left (by omega) hdy
        subst hpy
        constructor <;> nlinarith
      by_cases hA : 2 * err > -dy <;> by_cases hB : 2 * err < dx
      · -- both coordinates advance
        simp only [hA, hB, ite_true, if_pos]
        have hpxlt : px < dx := by
          rcases eq_or_lt_of_le hpxd with h | h
          · have hpy : py < dy := by
              rcases eq_or_lt_of_le hpyd with h' | h'
              · exact absurd ⟨h, h'⟩ hnot
              · exact h'
            exact absurd hA (hcaseA h hpy).1
          · exact h
        have hpylt : py < dy := by
          rcases eq_or_lt_of_le hpyd with h' | h'
          · exact absurd hB (hcaseB h' hpxlt).2
          · exact h'
        obtain ⟨ne', hd', lst', ch'⟩ :=
          ih (px + 1) (py + 1) (x0 + sx) (y0 + sy) (err - dy + dx)
            (by rw [hx0]; ring) (by rw [hy0]; ring) (by omega) (by omega) (by omega) (by omega)
            (by rw [herr]; ring) (by push_cast at hfuel ⊢; omega)
        refine ⟨by simp, rfl, ?_, ?_⟩
        · rw [getLast?_cons_of_ne_nil _ ne']
          exact lst'
        · rw [List.chain'_cons']
          refine ⟨?_, ch'⟩
          intro b hb
          rw [hd'] at hb
          simp only [Option.mem_some_iff] at hb
          subst hb
          exact adjStep_move x0 y0 sx sy hsx hsy sx sy (Or.inr rfl) (Or.inr rfl)
      · -- only x advances
        simp only [hA, hB, ite_true, ite_false]
        have hpxlt : px < dx := by
          rcases eq_or_lt_of_le hpxd with h | h
          · have hpy : py < dy := by
              rcases eq_or_lt_of_le hpyd with h' | h'
              · exact absurd ⟨h, h'⟩ hnot
              · exact h'
            exact absurd hA (hcaseA h hpy).1
          · exact h
        obtain ⟨ne', hd', lst', ch'⟩ :=
          ih (px + 1) py (x0 + sx) y0 (err - dy + 0)
            (by rw [hx0]; ring) hy0 (by omega) (by omega) hpy0 hpyd
            (by rw [herr]; ring) (by push_cast at hfuel ⊢; omega)
        refine ⟨by simp, rfl, ?_, ?_⟩
        · rw [getLast?_cons_of_ne_nil _ ne']
          exact lst'
        · rw [List.chain'_cons']
          refine ⟨?_, ch'⟩
          intro b hb
          rw [hd'] at hb
          simp only [Option.mem_some_iff] at hb
          subst hb
          have : (x0 + sx, y0) = (x0 + sx, y0 + 0) := by ring_nf
          rw [this]
          exact adjStep_move x0 y0 sx sy hsx hsy sx 0 (Or.inr rfl) (Or.inl rfl)
      · -- only y advances
        simp only [hA, hB, ite_true, ite_false]
        have hpylt : py < dy := by
          rcases eq_or_lt_of_le hpyd with h' | h'
          · have hpx : px < dx := by
              rcases eq_or_lt_of_le hpxd with h | h
              · exact absurd ⟨h, h'⟩ hnot
              · exact h
            exact absurd hB (hcaseB h' hpx).2
          · exact h'
        obtain ⟨ne', hd', lst', ch'⟩ :=
          ih px (py + 1) x0 (y0 + sy) (err + dx)
            hx0 (by rw [hy0]; ring) hpx0 hpxd (by omega) (by omega)
            (by rw [herr]; ring) (by push_cast at hfuel ⊢; omega)
        refine ⟨by simp, rfl, ?_, ?_⟩
        · rw [getLast?_cons_of_ne_nil _ ne']
          exact lst'
        · rw [List.chain'_cons']
          refine ⟨?_, ch'⟩
          intro b hb
          rw [hd'] at hb
          simp only [Option.mem_some_iff] at hb
          subst hb
          have : (x0, y0 + sy) = (x0 + 0, y0 + sy) := by ring_nf
          rw [this]
          exact adjStep_move x0 y0 sx sy hsx hsy 0 sy (Or.inl rfl) (Or.inr rfl)
      · -- neither branch fires: impossible while not at the endpoint
        exfalso
        rcases eq_or_lt_of_le hpxd with h | hlt
        · have hpy : py < dy := by
            rcases eq_or_lt_of_le hpyd with h' | h'
            · exact absurd ⟨h, h'⟩ hnot
            · exact h'
          exact hB (hcaseA h hpy).2
        · rcases eq_or_lt_of_le hpyd with h' | h'
          · exact hA (hcaseB h' hlt).1
          · omega

/-! ### Lemmas about the gesture handlers -/

lemma mousemove_drawMode (s : DrawState) (e : ℚ × ℚ) :
    (mousemove s e).drawMode = s.drawMode := by
  unfold mousemove
  split_ifs <;> rfl

lemma foldl_mousemove_drawMode (moves : List (ℚ × ℚ)) :
    ∀ s : DrawState, (List.foldl mousemove s moves).drawMode = s.drawMode := by
  induction moves with
  | nil => intro s; rfl
  | cons m t ih =>
    intro s
    rw [List.foldl_cons, ih, mousemove_drawMode]

/-! ### Lemmas about the packed key encoding -/

lemma toInt32_of_range {n : ℤ} (h0 : -2147483648 ≤ n) (h1 : n < 2147483648) :
    toInt32 n = n := by
  unfold toInt32
  split_ifs <;> omega

lemma toInt32_of_high {n : ℤ} (h0 : 2147483648 ≤ n) (h1 : n < 4294967296) :
    toInt32 n = n - 4294967296 := by
  unfold toInt32
  split_ifs <;> omega

lemma nat_lor_low {a b : ℕ} (hb : b < 2 ^ 16) : (a * 2 ^ 16) ||| b = a * 2 ^ 16 + b := by
  rw [Nat.mul_comm a (2 ^ 16)]
  exact (Nat.mul_add_lt_is_or hb a).symm

lemma nat_ldiff_low_ones {c b : ℕ} (hb : b < 2 ^ 16) :
    Nat.ldiff (2 ^ 16 * c + (2 ^ 16 - 1)) b = 2 ^ 16 * c + (2 ^ 16 - 1 - b) := by
  apply Nat.eq_of_testBit_eq
  intro i
  rw [Nat.testBit_ldiff,
    Nat.testBit_mul_pow_two_add c (show 2 ^ 16 - 1 < 2 ^ 16 by norm_num) i,
    Nat.testBit_mul_pow_two_add c (show 2 ^ 16 - 1 - b < 2 ^ 16 by omega) i]
  by_cases hi : i < 16
  · simp only [hi, if_true]
    rw [show 2 ^ 16 - 1 - b = 2 ^ 16 - (b + 1) by omega,
      Nat.testBit_two_pow_sub_succ hb, Nat.testBit_two_pow_sub_one]
  · simp only [hi, if_false]
    have hbf : Nat.testBit b i = false :=
      Nat.testBit_lt_two_pow (lt_of_lt_of_le hb (Nat.pow_le_pow_right (by norm_num) (by omega)))
    simp [hbf]

lemma nat_ldiff_ones {c r : ℕ} (hr : r < 2 ^ 16) :
    Nat.ldiff (2 ^ 16 - 1) (2 ^ 16 * c + r) = 2 ^ 16 - 1 - r := by
  apply Nat.eq_of_testBit_eq
  intro i
  rw [Nat.testBit_ldiff, Nat.testBit_mul_pow_two_add c hr i, Nat.testBit_two_pow_sub_one]
  by_cases hi : i < 16
  · rw [show 2 ^ 16 - 1 - r = 2 ^ 16 - (r + 1) by omega, Nat.testBit_two_pow_sub_succ hr]
    simp [hi]
  · have hle : 2 ^ 16 ≤ 2 ^ i := Nat.pow_le_pow_right (by norm_num) (by omega)
    have hf : Nat.testBit (2 ^ 16 - 1 - r) i = false :=
      Nat.testBit_lt_two_pow (by omega)
    rw [hf]
    simp [hi]

lemma nat_and_ones {n : ℕ} : n &&& (2 ^ 16 - 1) = n % 2 ^ 16 :=
  Nat.and_pow_two_sub_one_eq_mod n 16

lemma int_lor_ofNat (m n : ℕ) : Int.lor (m : ℤ) (n : ℤ) = ((m ||| n : ℕ) : ℤ) := rfl

lemma int_lor_negSucc_ofNat (m n : ℕ) :
    Int.lor (Int.negSucc m) (n : ℤ) = Int.negSucc (Nat.ldiff m n) := rfl

lemma int_land_ofNat (m n : ℕ) : Int.land (m : ℤ) (n : ℤ) = ((m &&& n : ℕ) : ℤ) := rfl

lemma int_land_negSucc_ofNat (m n : ℕ) :
    Int.land (Int.negSucc m) (n : ℤ) = ((Nat.ldiff n m : ℕ) : ℤ) := rfl

lemma pack_eq_low {x y : ℤ} (hx1 : -32768 ≤ x) (hx2 : x < 0)
    (hy1 : -32768 ≤ y) (hy2 : y ≤ 32767) :
    pack x y = (x + 32768) * 65536 + (y + 32768) := by
  have han : (((x + 32768).toNat : ℤ)) = x + 32768 := Int.toNat_of_nonneg (by omega)
  have hbn : (((y + 32768).toNat : ℤ)) = y + 32768 := Int.toNat_of_nonneg (by omega)
  set an := (x + 32768).toNat
  set bn := (y + 32768).toNat
  have han2 : an < 32768 := by omega
  have hbn2 : bn < 65536 := by omega
  unfold pack jsOr jsAnd jsShl16
  rw [toInt32_of_range (n := x + 32768) (by omega) (by omega),
    toInt32_of_range (n := y + 32768) (by omega) (by omega),
    toInt32_of_range (n := (65535 : ℤ)) (by omega) (by omega)]
  rw [← hbn, show ((65535 : ℤ)) = ((65535 : ℕ) : ℤ) from rfl, int_land_ofNat,
    show (65535 : ℕ) = 2 ^ 16 - 1 by norm_num, nat_and_ones,
    Nat.mod_eq_of_lt (by omega)]
  rw [toInt32_of_range (n := ((bn : ℕ) : ℤ)) (by omega) (by omega)]
  rw [toInt32_of_range (n := (x + 32768) * 65536) (by omega) (by omega)]
  rw [show (x + 32768) * 65536 = ((an * 65536 : ℕ) : ℤ) by push_cast; omega]
  rw [toInt32_of_range (n := ((an * 65536 : ℕ) : ℤ)) (by omega) (by omega)]
  rw [int_lor_ofNat, show (65536 : ℕ) = 2 ^ 16 by norm_num, nat_lor_low (by omega)]
  push_cast
  omega

lemma pack_eq_high {x y : ℤ} (hx1 : 0 ≤ x) (hx2 : x ≤ 32767)
    (hy1 : -32768 ≤ y) (hy2 : y ≤ 32767) :
    pack x y = (x + 32768) * 65536 + (y + 32768) - 4294967296 := by
  have han : (((x + 32768).toNat : ℤ)) = x + 32768 := Int.toNat_of_nonneg (by omega)
  have hbn : (((y + 32768).toNat : ℤ)) = y + 32768 := Int.toNat_of_nonneg (by omega)
  have hmn : (((4294967295 - (x + 32768) * 65536).toNat : ℤ)) =
      4294967295 - (x + 32768) * 65536 := Int.toNat_of_nonneg (by omega)
  set an := (x + 32768).toNat
  set bn := (y + 32768).toNat
  set mn := (4294967295 - (x + 32768) * 65536).toNat
  have han2 : 32768 ≤ an ∧ an < 65536 := by omega
  have hbn2 : bn < 65536 := by omega
  unfold pack jsOr jsAnd jsShl16
  rw [toInt32_of_range (n := x + 32768) (by omega) (by omega),
    toInt32_of_range (n := y + 32768) (by omega) (by omega),
    toInt32_of_range (n := (65535 : ℤ)) (by omega) (by omega)]
  rw [← hbn, show ((65535 : ℤ)) = ((65535 : ℕ) : ℤ) from rfl, int_land_ofNat,
    show (65535 : ℕ) = 2 ^ 16 - 1 by norm_num, nat_and_ones,
    Nat.mod_eq_of_lt (by omega)]
  rw [toInt32_of_range (n := ((bn : ℕ) : ℤ)) (by omega) (by omega)]
  rw [toInt32_of_high (n := (x + 32768) * 65536) (by omega) (by omega)]
  rw [toInt32_of_range (n := (x + 32768) * 65536 - 4294967296) (by omega) (by omega)]
  rw [show (x + 32768) * 65536 - 4294967296 = Int.negSucc mn by
      rw [Int.negSucc_eq]; omega]
  rw [int_lor_negSucc_ofNat]
  have hmn_split : mn = 65536 * (65535 - an) + 65535 := by omega
  rw [hmn_split, show (65536 : ℕ) = 2 ^ 16 by norm_num,
    show (65535 : ℕ) = 2 ^ 16 - 1 by norm_num, nat_ldiff_low_ones (by omega),
    Int.negSucc_eq]
  push_cast
  omega

lemma unpackX_pack {x y : ℤ} (hx : InRange x) (hy : InRange y) :
    unpackX (pack x y) = x := by
  obtain ⟨hx1, hx2⟩ := hx
  obtain ⟨hy1, hy2⟩ := hy
  rcases lt_or_le x 0 with h | h
  · rw [pack_eq_low hx1 h hy1 hy2]
    unfold unpackX jsShrU16 toUint32
    omega
  · rw [pack_eq_high h hx2 hy1 hy2]
    unfold unpackX jsShrU16 toUint32
    omega

lemma unpackY_pack {x y : ℤ} (hx : InRange x) (hy : InRange y) :
    unpackY (pack x y) = y := by
  obtain ⟨hx1, hx2⟩ := hx
  obtain ⟨hy1, hy2⟩ := hy
  have hbn : (((y + 32768).toNat : ℤ)) = y + 32768 := Int.toNat_of_nonneg (by omega)
  set bn := (y + 32768).toNat
  have hbn2 : bn < 65536 := by omega
  rcases lt_or_le x 0 with h | h
  · rw [pack_eq_low hx1 h hy1 hy2]
    have hkn : ((((x + 32768) * 65536 + (y + 32768)).toNat : ℤ)) =
        (x + 32768) * 65536 + (y + 32768) := Int.toNat_of_nonneg (by omega)
    set kn := ((x + 32768) * 65536 + (y + 32768)).toNat
    unfold unpackY jsAnd
    rw [toInt32_of_range (n := (x + 32768) * 65536 + (y + 32768)) (by omega) (by omega),
      toInt32_of_range (n := (65535 : ℤ)) (by omega) (by omega)]
    rw [← hkn, show ((65535 : ℤ)) = ((65535 : ℕ) : ℤ) from rfl, int_land_ofNat,
      show (65535 : ℕ) = 2 ^ 16 - 1 by norm_num, nat_and_ones]
    omega
  · rw [pack_eq_high h hx2 hy1 hy2]
    have hmn : (((4294967295 - (x + 32768) * 65536 - (y + 32768)).toNat : ℤ)) =
        4294967295 - (x + 32768) * 65536 - (y + 32768) :=
      Int.toNat_of_nonneg (by omega)
    set mn := (4294967295 - (x + 32768) * 65536 - (y + 32768)).toNat
    have han : (((x + 32768).toNat : ℤ)) = x + 32768 := Int.toNat_of_nonneg (by omega)
    set an := (x + 32768).toNat
    unfold unpackY jsAnd
    rw [toInt32_of_range
        (n := (x + 32768) * 65536 + (y + 32768) - 4294967296) (by omega) (by omega),
      toInt32_of_range (n := (65535 : ℤ)) (by omega) (by omega)]
    rw [show (x + 32768) * 65536 + (y + 32768) - 4294967296 = Int.negSucc mn by
        rw [Int.negSucc_eq]; omega]
    rw [show ((65535 : ℤ)) = ((65535 : ℕ) : ℤ) from rfl, int_land_negSucc_ofNat]
    have hsplit : mn = 65536 * (65535 - an) + (65535 - bn) := by omega
    rw [hsplit, show (65536 : ℕ) = 2 ^ 16 by norm_num,
      show (65535 : ℕ) = 2 ^ 16 - 1 by norm_num, nat_ldiff_ones (by omega)]
    omega

lemma pack_overflow : unpackX (pack 32768 0) ≠ 32768 := by
  have h1 : pack 32768 0 = 32768 := by
    unfold pack jsOr jsAnd jsShl16
    rw [toInt32_of_range (n := (32768 : ℤ) + 32768) (by norm_num) (by norm_num),
      toInt32_of_range (n := ((0 : ℤ) + 32768)) (by norm_num) (by norm_num),
      toInt32_of_range (n := (65535 : ℤ)) (by norm_num) (by norm_num)]
    rw [show ((32768 : ℤ) + 32768) * 65536 = 4294967296 by norm_num,
      show toInt32 4294967296 = 0 by unfold toInt32; norm_num]
    rw [show ((0 : ℤ) + 32768) = ((32768 : ℕ) : ℤ) by norm_num,
      show ((65535 : ℤ)) = ((65535 : ℕ) : ℤ) from rfl, int_land_ofNat,
      show (65535 : ℕ) = 2 ^ 16 - 1 by norm_num, nat_and_ones,
      show ((32768 : ℕ) % 2 ^ 16) = 32768 by norm_num]
    rw [toInt32_of_range (n := (0 : ℤ)) (by norm_num) (by norm_num),
      toInt32_of_range (n := ((32768 : ℕ) : ℤ)) (by norm_num) (by norm_num)]
    rw [show (0 : ℤ) = ((0 : ℕ) : ℤ) from rfl, int_lor_ofNat, Nat.zero_or]
    norm_num
  rw [h1]
  unfold unpackX jsShrU16 toUint32
  omega

/-! ### Claim theorems -/

/-- Claim C1: one invocation of `tick` replaces the live set `S` with exactly
the set prescribed by the B3/S23 rule — a cell is in the next generation if
and only if it has exactly 3 live Moore neighbors in `S`, or it is in `S` and
has exactly 2 live Moore neighbors in `S`; every other cell is dead. -/
theorem tick_matches_B3S23 (S : Finset (ℤ × ℤ)) (k : ℤ × ℤ) :
    k ∈ tick S ↔ liveNeighborCount S k = 3 ∨ (k ∈ S ∧ liveNeighborCount S k = 2) := by
  unfold tick
  rw [Finset.mem_filter, mem_tallyKeys]
  simp only [tally_eq_liveNeighborCount]
  constructor
  · rintro ⟨-, h⟩
    rcases h with ⟨hS, h2 | h3⟩ | ⟨-, h3⟩
    · exact Or.inr ⟨hS, h2⟩
    · exact Or.inl h3
    · exact Or.inl h3
  · intro h
    have hpos : 0 < liveNeighborCount S k := by rcases h with h | ⟨-, h⟩ <;> omega
    refine ⟨exists_adjacent_of_pos hpos, ?_⟩
    by_cases hS : k ∈ S
    · rcases h with h | ⟨-, h⟩
      · exact Or.inl ⟨hS, Or.inr h⟩
      · exact Or.inl ⟨hS, Or.inl h⟩
    · rcases h with h | ⟨hS', -⟩
      · exact Or.inr ⟨hS, h⟩
      · exact absurd hS' hS

/-- Claim C2: after the neighbor-tally pass, a coordinate `k` is a key of the
tally map if and only if it is Moore-adjacent to at least one cell of `S`
(a cell is never counted as its own neighbor), and the count stored at `k`
equals the number of cells of `S` Moore-adjacent to `k`.  Counts live in `ℕ`,
so no negative or fractional count can occur. -/
theorem tally_pass (S : Finset (ℤ × ℤ)) (k : ℤ × ℤ) :
    (k ∈ tallyKeys S ↔ ∃ c ∈ S, mooreAdjacent k c) ∧
    tally S k = liveNeighborCount S k :=
  ⟨mem_tallyKeys S k, tally_eq_liveNeighborCount S k⟩

/-- Claim C3: for a scale in the clamp range, any offset, any screen point `p`
and any zoom factor, the grid cell under `p` computed by `toGrid` is the same
before and after `zoomAt p factor` — even when the new scale is clamped. -/
theorem zoom_anchor (v : Viewport) (p : ℚ × ℚ) (factor : ℚ)
    (h1 : 2 ≤ v.scale) (h2 : v.scale ≤ 100) :
    toGrid (zoomAt v p factor) p = toGrid v p := by
  have hns := (clampScale_pos (v.scale * factor)).ne'
  unfold toGrid zoomAt
  have key : ∀ a o : ℚ,
      (a - (a - (a - o) / v.scale * clampScale (v.scale * factor))) /
        clampScale (v.scale * factor) = (a - o) / v.scale := by
    intro a o
    rw [sub_sub_cancel, mul_div_cancel_right₀ _ hns]
  rw [key, key]

/-- Witness for claim C3 at a concrete viewport, cursor point and factor. -/
theorem zoom_anchor_w :
    toGrid (zoomAt ⟨20, 7, 3⟩ (101, 53) (11/10)) (101, 53) = toGrid ⟨20, 7, 3⟩ (101, 53) :=
  zoom_anchor ⟨20, 7, 3⟩ (101, 53) (11/10) (by decide) (by decide)

/-- Claim C4: transitioning the empty live set any number of times yields the
empty set, and `clearAll` followed by any number of transitions yields the
empty set. -/
theorem empty_set_stable :
    (∀ n : ℕ, tick^[n] (∅ : Finset (ℤ × ℤ)) = ∅) ∧
    (∀ (S : Finset (ℤ × ℤ)) (n : ℕ), tick^[n] (clearAll S) = ∅) :=
  ⟨tick_iterate_empty, fun _ n => tick_iterate_empty n⟩

/-- Claim C5: the 5-cell glider seed (the auto-seed of the start button,
src/script.js lines 302-305) returns to its original shape translated by
`(+1,+1)` after exactly 4 ticks, and after none of 0, 1, 2 or 3 ticks. -/
theorem glider_four_ticks :
    tick^[4] ({(0,0),(1,0),(2,0),(2,-1),(1,-2)} : Finset (ℤ × ℤ)) =
      {(1,1),(2,1),(3,1),(3,0),(2,-1)} ∧
    ({(0,0),(1,0),(2,0),(2,-1),(1,-2)} : Finset (ℤ × ℤ)) ≠
      {(1,1),(2,1),(3,1),(3,0),(2,-1)} ∧
    tick^[1] ({(0,0),(1,0),(2,0),(2,-1),(1,-2)} : Finset (ℤ × ℤ)) ≠
      {(1,1),(2,1),(3,1),(3,0),(2,-1)} ∧
    tick^[2] ({(0,0),(1,0),(2,0),(2,-1),(1,-2)} : Finset (ℤ × ℤ)) ≠
      {(1,1),(2,1),(3,1),(3,0),(2,-1)} ∧
    tick^[3] ({(0,0),(1,0),(2,0),(2,-1),(1,-2)} : Finset (ℤ × ℤ)) ≠
      {(1,1),(2,1),(3,1),(3,0),(2,-1)} := by
  decide

/-- Claim C6: for every integer grid cell, positive scale and any offset,
`toGrid (toScreen c) = c` (floor rounding, valid for negative cells too). -/
theorem toGrid_toScreen_roundtrip (v : Viewport) (c : ℤ × ℤ) (h : 0 < v.scale) :
    toGrid v (toScreen v c) = c := by
  unfold toGrid toScreen
  have key : ∀ (z : ℤ) (o : ℚ), ⌊((z : ℚ) * v.scale + o - o) / v.scale⌋ = z := by
    intro z o
    rw [add_sub_cancel_right, mul_div_cancel_right₀ _ h.ne', Int.floor_intCast]
  exact Prod.ext (key c.1 v.offsetX) (key c.2 v.offsetY)

/-- Witness for claim C6 at a concrete viewport and cell. -/
theorem toGrid_toScreen_roundtrip_w :
    toGrid ⟨20, 3, 7⟩ (toScreen ⟨20, 3, 7⟩ (-5, 4)) = (-5, 4) :=
  toGrid_toScreen_roundtrip ⟨20, 3, 7⟩ (-5, 4) (by decide)

/-- Claim C7: for every pair of integer endpoints the stroke interpolation
terminates (the fueled run reaches the endpoint and stops there), and the
sequence of centers passed to `paintCircle` starts at `(x0,y0)`, ends at
`(x1,y1)`, and has consecutive centers differing by at most 1 in each
coordinate — so the painted union is 8-connected regardless of distance. -/
theorem interpolateLine_gap_free (x0 y0 x1 y1 : ℤ) :
    interpolateLine x0 y0 x1 y1 ≠ [] ∧
    (interpolateLine x0 y0 x1 y1).head? = some (x0, y0) ∧
    (interpolateLine x0 y0 x1 y1).getLast? = some (x1, y1) ∧
    List.Chain' adjStep (interpolateLine x0 y0 x1 y1) := by
  unfold interpolateLine
  have hdx : (0 : ℤ) ≤ |x1 - x0| := abs_nonneg _
  have hdy : (0 : ℤ) ≤ |y1 - y0| := abs_nonneg _
  have hsx : (if x0 < x1 then (1 : ℤ) else -1) = 1 ∨ (if x0 < x1 then (1 : ℤ) else -1) = -1 := by
    split_ifs <;> simp
  have hsy : (if y0 < y1 then (1 : ℤ) else -1) = 1 ∨ (if y0 < y1 then (1 : ℤ) else -1) = -1 := by
    split_ifs <;> simp
  have hx1 : x1 = x0 + (if x0 < x1 then (1 : ℤ) else -1) * |x1 - x0| := by
    split_ifs with h
    · rw [abs_of_nonneg (by omega : (0 : ℤ) ≤ x1 - x0)]; ring
    · rw [abs_of_nonpos (by omega : x1 - x0 ≤ 0)]; ring
  have hy1 : y1 = y0 + (if y0 < y1 then (1 : ℤ) else -1) * |y1 - y0| := by
    split_ifs with h
    · rw [abs_of_nonneg (by omega : (0 : ℤ) ≤ y1 - y0)]; ring
    · rw [abs_of_nonpos (by omega : y1 - y0 ≤ 0)]; ring
  exact
    bresRun_spec x1 y1 |x1 - x0| |y1 - y0| _ _ x0 y0 hdx hdy hsx hsy hx1 hy1
      (|x1 - x0| + |y1 - y0| + 1).toNat 0 0 x0 y0 (|x1 - x0| - |y1 - y0|)
      (by ring) (by ring) le_rfl hdx le_rfl hdy (by ring) (by omega)

/-- Claim C8 (code bug in the packed-key variants): the script.js rasterizer
with brush diameter 1 changes exactly the single center cell (inserted when
painting, erased when erasing), but the part_000/part_001 rasterizer at
diameter 1 paints the whole 3x3 bounding box: at center `(0,0)` on the empty
set it produces 9 cells instead of 1. -/
theorem brush_diameter_one :
    (∀ (cells : Finset (ℤ × ℤ)) (mode : Bool) (c : ℤ × ℤ),
        paintCircleV2 mode 1 c cells =
          if mode then insert c cells else cells.erase c) ∧
    paintCircleV1 true 1 ((0 : ℤ), (0 : ℤ)) ∅ =
      ({(-1,-1),(0,-1),(1,-1),(-1,0),(0,0),(1,0),(-1,1),(0,1),(1,1)} : Finset (ℤ × ℤ)) := by
  constructor
  · intro cells mode c
    cases mode
    · simp [paintCircleV2, paintedCellsV2, Finset.sdiff_singleton_eq_erase]
    · show cells ∪ paintedCellsV2 1 c = insert c cells
      rw [show paintedCellsV2 1 c = {c} from rfl]
      ext x
      simp [or_comm]
  · show ∅ ∪ paintedCellsV1 1 ((0 : ℤ), (0 : ℤ)) = _
    rw [Finset.empty_union, paintedCellsV1_one]

/-- Claim C9: for coordinates in `[-32768, 32767]` the packed key round-trips
through `unpackX`/`unpackY`, `pack` is injective on that domain, and outside
the range the round-trip fails (`x = 32768` unpacks to `-32768`). -/
theorem pack_unpack_roundtrip :
    (∀ x y : ℤ, InRange x → InRange y →
      unpackX (pack x y) = x ∧ unpackY (pack x y) = y) ∧
    (∀ x y x' y' : ℤ, InRange x → InRange y → InRange x' → InRange y' →
      pack x y = pack x' y' → x = x' ∧ y = y') ∧
    unpackX (pack 32768 0) ≠ 32768 := by
  refine ⟨fun x y hx hy => ⟨unpackX_pack hx hy, unpackY_pack hx hy⟩, ?_, pack_overflow⟩
  intro x y x' y' hx hy hx' hy' hp
  constructor
  · rw [← unpackX_pack hx hy, ← unpackX_pack hx' hy', hp]
  · rw [← unpackY_pack hx hy, ← unpackY_pack hx' hy', hp]

/-- Witness for claim C9 at concrete in-range coordinates. -/
theorem pack_unpack_roundtrip_w :
    unpackX (pack 5 (-7)) = 5 ∧ unpackY (pack 5 (-7)) = -7 :=
  pack_unpack_roundtrip.1 5 (-7) ⟨by decide, by decide⟩ ⟨by decide, by decide⟩

/-- Claim C10: the stroke mode is fixed once at gesture start as the negation
of the starting cell's aliveness, and no sequence of `mousemove` events
afterwards changes it. -/
theorem stroke_mode_fixed (s : DrawState) (e : ℚ × ℚ) (moves : List (ℚ × ℚ)) :
    (mousedownLeft s e).drawMode =
      !(decide (toGrid ⟨s.scale, s.offsetX, s.offsetY⟩ e ∈ s.liveCells)) ∧
    (List.foldl mousemove (mousedownLeft s e) moves).drawMode =
      (mousedownLeft s e).drawMode :=
  ⟨rfl, foldl_mousemove_drawMode moves _⟩

end GoL
